import Mathlib

/-!
Shallow embedding of the deduplipy pipeline (blocking, scoring, clustering,
singleton assignment) together with theorems settling the specification
claims.  Dataframes are modelled as Lean lists of rows, pandas column
operations as list transformations, and the external collaborators
(classifier, scipy linkage/fcluster, blocking-rule functions) as function
parameters.  Scores are rationals.
-/

/-- Embeds one record of the dataframe inside `Deduplicator.predict`:
its field values (in `col_names` order) and the `row_id` assigned by
`X[ROW_ID] = np.arange(len(X))` (deduplicator.py line 237). -/
structure BRow where
  vals : List String
  rowId : Nat
deriving DecidableEq, Repr

/-- Embeds one row of the scored pairs table of `Deduplicator.predict`
(deduplicator.py lines 245-255): the two records of the pair and the
`score` column. -/
structure ScoredPair where
  r1 : BRow
  r2 : BRow
  score : ℚ
deriving DecidableEq, Repr

/-- Embeds the tagging in `Blocking._fingerprint` (blocking.py lines
137-147): a selected rule's function result on a field value, with the
rule's enumeration index appended after a colon for non-null results. -/
def tagRule (j : Nat) (fn : String → Option String) (v : String) : Option String :=
  (fn v).map (fun s => s ++ ":" ++ toString j)

/-- A selected blocking rule as used by `Blocking._fingerprint`: the index
of its column inside `col_names` and its rule function (an external
PredicateRule, `value -> token | null`). -/
structure SRule where
  colIdx : Nat
  fn : String → Option String

/-- Embeds `Blocking._fingerprint` (blocking.py lines 125-152): applies
every selected rule to its column, tags non-null results with the rule
index, melts the rule-result columns into a long-format table and drops
nulls.  Pandas `melt` stacks the value columns one after another, each in
row order, which the outer iteration over rule indices reproduces. -/
def fingerprintTable (rules : List SRule) (X : List BRow) : List (BRow × String) :=
  ((List.range rules.length).map (fun j =>
    X.filterMap (fun r =>
      match rules.get? j with
      | none => none
      | some rule => (tagRule j rule.fn (r.vals.getD rule.colIdx "")).map (fun f => (r, f))))).flatten

/-- Embeds `Blocking._create_pairs_table` (blocking.py lines 154-173):
self-merge of the fingerprint table on the `fingerprint` column followed by
the filter `row_id_1 < row_id_2`. -/
def createPairsTable (fp : List (BRow × String)) : List (BRow × BRow) :=
  (fp.map (fun e1 =>
    fp.filterMap (fun e2 =>
      if e1.2 = e2.2 ∧ e1.1.rowId < e2.1.rowId then some (e1.1, e2.1) else none))).flatten

/-- Key of a candidate pair: the `(row_id_1, row_id_2)` columns used by
`drop_duplicates` in `Blocking.transform` (blocking.py line 188). -/
def pairKey (p : BRow × BRow) : Nat × Nat :=
  (p.1.rowId, p.2.rowId)

/-- Embeds pandas `drop_duplicates(subset=[row_id_1, row_id_2])` with the
default `keep='first'`: keeps the first occurrence of every key, tracking
the keys already seen. -/
def dropDupPairs : List (BRow × BRow) → List (Nat × Nat) → List (BRow × BRow)
  | [], _ => []
  | p :: rest, seen =>
    if pairKey p ∈ seen then dropDupPairs rest seen
    else p :: dropDupPairs rest (pairKey p :: seen)

/-- Embeds `Blocking.transform` (blocking.py lines 175-191): fingerprint,
self-merge into a pairs table, drop duplicate `(row_id_1, row_id_2)`
combinations. -/
def blockingTransform (rules : List SRule) (X : List BRow) : List (BRow × BRow) :=
  dropDupPairs (createPairsTable (fingerprintTable rules X)) []

/-- Embeds the scoring step of `Deduplicator.predict` (deduplicator.py
lines 245-255): the classifier probability (abstracted as `score0`, a
function of the two records' field values, since the similarity features
are computed from those values) followed by the exact-duplicate override
that forces the score to 1 when the two sides agree on every configured
field. -/
def scorePairs (score0 : List String → List String → ℚ) (ps : List (BRow × BRow)) :
    List ScoredPair :=
  ps.map (fun p =>
    { r1 := p.1, r2 := p.2,
      score := if p.1.vals = p.2.vals then 1 else score0 p.1.vals p.2.vals })

/-- Embeds the threshold filter of `Deduplicator.predict` (deduplicator.py
lines 258-260): keeps the pairs with `score >= score_threshold`. -/
def filterScored (threshold : ℚ) (sps : List ScoredPair) : List ScoredPair :=
  sps.filter (fun sp => threshold ≤ sp.score)

/-- Edge lookup in the graph built by `hierarchical_clustering`
(clustering.py lines 28-36): the scored pair joining two row ids, in either
orientation.  After `drop_duplicates` each unordered pair occurs at most
once, so the first match is the edge weight `networkx` stores. -/
def edgeScore (sps : List ScoredPair) (i j : Nat) : Option ℚ :=
  (sps.find? (fun sp =>
    (sp.r1.rowId = i ∧ sp.r2.rowId = j) ∨ (sp.r1.rowId = j ∧ sp.r2.rowId = i))).map
    (fun sp => sp.score)

/-- Boolean adjacency of two row ids in the clustering graph. -/
def adjB (sps : List ScoredPair) (i j : Nat) : Bool :=
  (edgeScore sps i j).isSome

/-- Entry of the distance matrix built in `hierarchical_clustering`
(clustering.py line 46): `(ones - eye) - adjacency` gives 0 on the
diagonal, `1 - score` where an edge exists and 1 for a non-adjacent pair of
distinct nodes (missing edges have adjacency 0 in `nx.to_numpy_matrix`). -/
def distanceEntry (sps : List ScoredPair) (i j : Nat) : ℚ :=
  if i = j then 0
  else
    match edgeScore sps i j with
    | some s => 1 - s
    | none => 1

/-- Dense pairwise distance matrix of a component, nodes in graph order
(clustering.py lines 45-46). -/
def distMatrix (sps : List ScoredPair) (c : List Nat) : List (List ℚ) :=
  c.map (fun i => c.map (fun j => distanceEntry sps i j))

/-- Appends an element to a list unless already present: models the
insertion-order node set of a `networkx` graph under `add_node`. -/
def insertNew (l : List Nat) (n : Nat) : List Nat :=
  if n ∈ l then l else l ++ [n]

/-- Node list of the clustering graph in insertion order: for each scored
pair, `add_node(row_id_1)` then `add_node(row_id_2)` then `add_edge`
(clustering.py lines 29-36). -/
def nodesOf (sps : List ScoredPair) : List Nat :=
  sps.foldl (fun acc sp => insertNew (insertNew acc sp.r1.rowId) sp.r2.rowId) []

/-- One breadth step of connected-component exploration: the nodes already
reached or adjacent to a reached node, kept in graph node order. -/
def expandOnce (sps : List ScoredPair) (nodes cur : List Nat) : List Nat :=
  nodes.filter (fun m => m ∈ cur || cur.any (fun k => adjB sps k m))

/-- Iterated breadth steps with explicit fuel. -/
def reachIter (sps : List ScoredPair) (nodes : List Nat) : Nat → List Nat → List Nat
  | 0, cur => cur
  | n + 1, cur => reachIter sps nodes n (expandOnce sps nodes cur)

/-- Connected component of a node, in graph node order; fuel equal to the
node count saturates the breadth-first exploration, matching
`nx.connected_components` / `graph.subgraph` iteration order
(clustering.py lines 38-43). -/
def componentOf (sps : List ScoredPair) (i : Nat) : List Nat :=
  reachIter sps (nodesOf sps) (nodesOf sps).length [i]

/-- Components of the clustering graph in the order `nx.connected_components`
yields them: scanning nodes in insertion order, emitting the component of
each not-yet-seen node. -/
def componentsGo (sps : List ScoredPair) : List Nat → List Nat → List (List Nat)
  | [], _ => []
  | n :: rest, seen =>
    if n ∈ seen then componentsGo sps rest seen
    else componentOf sps n :: componentsGo sps rest (seen ++ componentOf sps n)

/-- Connected components of the clustering graph, in discovery order. -/
def componentsList (sps : List ScoredPair) : List (List Nat) :=
  componentsGo sps (nodesOf sps) []

/-- Embeds the per-component branch of `hierarchical_clustering`
(clustering.py lines 44-53): a component with more than one node goes
through the external cut routine — `fcluster(linkage(squareform(D),
method='centroid'), t = 1 - cluster_threshold, criterion='distance')`,
abstracted as the `cut` parameter applied to the dense distance matrix and
the threshold `1 - cluster_threshold` — while a single-node component gets
the label array `[1]`. -/
def clusterLabels (cut : List (List ℚ) → ℚ → List Nat) (sps : List ScoredPair)
    (clusterThreshold : ℚ) (c : List Nat) : List Nat :=
  if 1 < c.length then cut (distMatrix sps c) (1 - clusterThreshold) else [1]

/-- Python dict insertion on an association list: overwrites in place when
the key exists, appends otherwise (dicts preserve insertion order). -/
def dictInsert (d : List (Nat × Nat)) (k : Nat) (v : Nat) : List (Nat × Nat) :=
  if d.any (fun p => p.1 = k) then d.map (fun p => if p.1 = k then (k, v) else p)
  else d ++ [(k, v)]

/-- Python `dict.update` with the entries of an association list. -/
def dictUpdate (d : List (Nat × Nat)) (kvs : List (Nat × Nat)) : List (Nat × Nat) :=
  kvs.foldl (fun acc kv => dictInsert acc kv.1 kv.2) d

/-- Embeds the component loop of `hierarchical_clustering` (clustering.py
lines 40-55): per component, zip its nodes (graph order) with the cut
labels offset by the running `cluster_counter`, `dict.update` the
accumulating clustering, and advance the counter by the component size. -/
def hcGo (cut : List (List ℚ) → ℚ → List Nat) (sps : List ScoredPair)
    (clusterThreshold : ℚ) :
    List (List Nat) → Nat → List (Nat × Nat) → List (Nat × Nat)
  | [], _, d => d
  | c :: cs, counter, d =>
    hcGo cut sps clusterThreshold cs (counter + c.length)
      (dictUpdate d (c.zip ((clusterLabels cut sps clusterThreshold c).map
        (fun lab => lab + counter))))

/-- Embeds `hierarchical_clustering` (clustering.py lines 12-61) as the
association list `row_id -> deduplication_id`.  The final sort of
`df_clusters` by id only permutes rows of a uniquely-keyed table and is
dropped, since the subsequent merge in `predict` is keyed on `row_id`. -/
def hierarchicalClustering (cut : List (List ℚ) → ℚ → List Nat)
    (sps : List ScoredPair) (clusterThreshold : ℚ) : List (Nat × Nat) :=
  hcGo cut sps clusterThreshold (componentsList sps) 0 []

/-- Embeds the left merge `X.merge(df_clusters, on=ROW_ID, how='left')`
(deduplicator.py line 271): every left row is repeated once per matching
cluster row, or kept once with a null id when unmatched. -/
def leftMerge (X : List BRow) (cl : List (Nat × Nat)) : List (BRow × Option Nat) :=
  (X.map (fun r =>
    let ms := cl.filter (fun c => c.1 = r.rowId)
    if ms.isEmpty then [(r, none)] else ms.map (fun c => (r, some c.2)))).flatten

/-- Pandas `Series.max`: none on an empty series (pandas yields NaN
there), otherwise the maximum. -/
def maxNat : List Nat → Option Nat
  | [] => none
  | n :: rest =>
    match maxNat rest with
    | none => some n
    | some m => some (Nat.max n m)

/-- Fills the rows with a null id with consecutive ids starting at `next`,
in row order: the assignment `X.loc[isnull, id] = np.arange(max+1,
max+1+n_missing)` of `Deduplicator._add_singletons`. -/
def fillMissing : List (BRow × Option Nat) → Nat → List (BRow × Nat)
  | [], _ => []
  | (r, some c) :: rest, next => (r, c) :: fillMissing rest next
  | (r, none) :: rest, next => (r, next) :: fillMissing rest (next + 1)

/-- Embeds `Deduplicator._add_singletons` (deduplicator.py lines 198-217).
When every id is null — in particular on an empty frame — the pandas `max`
is NaN and `np.arange(NaN + 1, ...)` raises, which the error branch
models; otherwise the nulls are filled with `max + 1, max + 2, ...`. -/
def addSingletons (rows : List (BRow × Option Nat)) :
    Except String (List (BRow × Nat)) :=
  match maxNat (rows.filterMap (fun r => r.2)) with
  | none => .error "ValueError: cannot convert float NaN to integer"
  | some m => .ok (fillMissing rows (m + 1))

/-- Assigns consecutive row numbers starting at `i`: the column
`X[ROW_ID] = np.arange(len(X))` of `Deduplicator.predict`. -/
def rowsOfAux : Nat → List (List String) → List BRow
  | _, [] => []
  | i, v :: vs => ⟨v, i⟩ :: rowsOfAux (i + 1) vs

/-- Input rows with their fresh row ids, as `predict` sees them. -/
def rowsOf (X : List (List String)) : List BRow :=
  rowsOfAux 0 X

/-- Embeds `Deduplicator.predict` (deduplicator.py lines 219-276) up to the
final drop of the `row_id` column: blocking, scoring with the
exact-duplicate override, threshold filtering, hierarchical clustering,
left merge of cluster ids, singleton assignment.  The classifier and the
scipy cut routine are the parameters `score0` and `cut`. -/
def predictFull (score0 : List String → List String → ℚ)
    (cut : List (List ℚ) → ℚ → List Nat) (rules : List SRule)
    (scoreThreshold clusterThreshold : ℚ) (X : List (List String)) :
    Except String (List (BRow × Nat)) :=
  addSingletons
    (leftMerge (rowsOf X)
      (hierarchicalClustering cut
        (filterScored scoreThreshold
          (scorePairs score0 (blockingTransform rules (rowsOf X))))
        clusterThreshold))

/-- Embeds the value returned by `Deduplicator.predict`: the merged frame
with the `row_id` column dropped, every row carrying its field values and
its integer `deduplication_id`. -/
def predictD (score0 : List String → List String → ℚ)
    (cut : List (List ℚ) → ℚ → List Nat) (rules : List SRule)
    (scoreThreshold clusterThreshold : ℚ) (X : List (List String)) :
    Except String (List (List String × Nat)) :=
  (predictFull score0 cut rules scoreThreshold clusterThreshold X).map
    (fun rs => rs.map (fun rc => (rc.1.vals, rc.2)))

/-- Embeds `int(n_samples ** 0.5)` in `Deduplicator._create_pairs_table`
(deduplicator.py line 121): Python `int()` truncates, so the sample size is
the floor of the square root (for sizes where the float square root is
exact enough, which holds on the inputs considered here). -/
def fitSampleSize (nSamples : Nat) : Nat :=
  Nat.sqrt nSamples

/-- Definition following the claim's words for C8 (spec side, to be
compared with `fitSampleSize`): the ceiling of the square root. -/
def ceilSqrt (n : Nat) : Nat :=
  if Nat.sqrt n * Nat.sqrt n = n then Nat.sqrt n else Nat.sqrt n + 1

/-- Embeds the pair construction of `Deduplicator._create_pairs_table`
(deduplicator.py lines 123-148): the cross product of the sample with
itself restricted to `row_id_1 <= row_id_2`.  The intermediate
`sort_values` on the two row-id columns only permutes rows of the product
and is dropped; the properties stated below are membership facts. -/
def createFitPairsTable (sample : List BRow) : List (BRow × BRow) :=
  ((sample.map (fun a => sample.map (fun b => (a, b)))).flatten).filter
    (fun p => p.1.rowId ≤ p.2.rowId)

/-- The `rules` argument of `Deduplicator.__init__`: either a list of
blocking functions or a dict from column names to lists of functions.
Functions are identified by their stable names (`function.__name__`). -/
inductive RulesArg where
  | rlist (rules : List String)
  | rdict (rulesInfo : List (String × List String))
deriving DecidableEq

/-- Embeds the `rules_info` construction of `Deduplicator.__init__`
(deduplicator.py lines 64-72), with the package-level `all_rules` list a
parameter (its module is outside the inspected sources).  `rules=None`
falls through to the list branch after `self.rules = all_rules`; the list
branch builds `{x: all_rules for x in self.col_names}` — the supplied list
itself is not consulted — and the dict branch stores the dict as is. -/
def initRulesInfo (allRules : List String) (colNames : List String) :
    Option RulesArg → List (String × List String)
  | none => colNames.map (fun c => (c, allRules))
  | some (RulesArg.rlist _) => colNames.map (fun c => (c, allRules))
  | some (RulesArg.rdict d) => d

/-- A rule spec after `Blocking.fit` (blocking.py lines 35-44 and 93-101):
column name, rule function name, and the set of covered training-pair
indices.  The `rule_set` is a finite set compared extensionally, matching
Python `set` equality. -/
structure RuleSpecL where
  colName : String
  functionName : String
  ruleSet : Finset Nat
deriving DecidableEq

/-- Embeds the selection at the end of `Blocking.fit` (blocking.py lines
117-121): `rules_selected` keeps the specs whose `rule_set` is `in
self.cover`, where Python list membership compares sets by `==`
(extensional set equality), mirrored here by `Finset` equality. -/
def rulesSelected (specs : List RuleSpecL) (cover : List (Finset Nat)) :
    List RuleSpecL :=
  specs.filter (fun s => decide (s.ruleSet ∈ cover))

/-- Pandas column assignment `df[c] = ...` at the frame-schema level:
appends the column when absent, keeps the schema otherwise. -/
def setItemCol (cols : List String) (c : String) : List String :=
  if c ∈ cols then cols else cols ++ [c]

/-- Column schema of a pandas inner merge on a key column: the left
columns (the key once, from the left frame) followed by the non-key right
columns. -/
def mergeColsOn (left right : List String) (key : String) : List String :=
  left ++ right.filter (fun c => c ≠ key)

/-- Pandas `drop(columns=[c])` at the schema level. -/
def dropCol (cols : List String) (c : String) : List String :=
  cols.filter (fun x => x ≠ c)

/-- Column schema of the caller's dataframe object after
`Deduplicator.predict` returns: line 237 `X[ROW_ID] = np.arange(len(X))`
mutates the caller's object in place, and line 271 rebinds the local name
`X` to a new merged frame, so no later operation (including the drop of
`ROW_ID`) touches the caller's object again. -/
def predictCallerCols (rowId : String) (cols : List String) : List String :=
  setItemCol cols rowId

/-- Column schema of the dataframe returned by `Deduplicator.predict`:
the mutated input schema merged with the cluster frame (columns
`[deduplication_id, row_id]`) on `row_id`, the `row_id` column dropped,
and the `astype(int)` reassignment of the id column (line 275). -/
def predictResultCols (rowId dedupId : String) (cols : List String) : List String :=
  setItemCol
    (dropCol (mergeColsOn (setItemCol cols rowId) [dedupId, rowId] rowId) rowId)
    dedupId

/-- Modelled from the spec: the scipy cut
`fcluster(linkage(condensed, method='centroid'), t, criterion='distance')`
— scipy is external to the repository — as it behaves on the concrete runs
below.  In each of those runs every multi-node component is a two-node
component of exactly duplicated records, so its single merge happens at
height 0, below the positive cut height, and the flat clustering is one
cluster containing every node of the component. -/
def cutMergeAll (D : List (List ℚ)) (_t : ℚ) : List Nat :=
  List.replicate D.length 1

/-- Claim-side predicate for C7 (the claim's words): the id column is a
dense range — every integer lying between two present ids is present. -/
def noGapsB (ids : List Nat) : Bool :=
  ids.all (fun a => ids.all (fun b =>
    (List.range' a (b + 1 - a)).all (fun c => ids.contains c)))

/-- Number of rows with a null id before singleton assignment. -/
def missingCount (rows : List (BRow × Option Nat)) : Nat :=
  (rows.filter (fun r => r.2.isNone)).length

/-- Ids that singleton assignment wrote: the output ids at the positions
whose input id was null. -/
def assignedSingletonIds (out : List (BRow × Nat)) (rows : List (BRow × Option Nat)) :
    List Nat :=
  (out.zip rows).filterMap (fun q => if q.2.2.isNone then some q.1.2 else none)

lemma createPairsTable_lt (fp : List (BRow × String)) :
    ∀ p ∈ createPairsTable fp, p.1.rowId < p.2.rowId := by
  intro p hp
  simp only [createPairsTable, List.mem_flatten, List.mem_map] at hp
  obtain ⟨l, ⟨e1, _, rfl⟩, hpl⟩ := hp
  simp only [List.mem_filterMap] at hpl
  obtain ⟨e2, _, heq⟩ := hpl
  by_cases h : e1.2 = e2.2 ∧ e1.1.rowId < e2.1.rowId
  · rw [if_pos h] at heq
    cases heq
    exact h.2
  · rw [if_neg h] at heq
    cases heq

lemma dropDupPairs_subset (l : List (BRow × BRow)) :
    ∀ seen p, p ∈ dropDupPairs l seen → p ∈ l := by
  induction l with
  | nil => intro seen p hp; cases hp
  | cons q rest ih =>
    intro seen p hp
    by_cases hq : pairKey q ∈ seen
    · rw [dropDupPairs, if_pos hq] at hp
      exact List.mem_cons_of_mem q (ih seen p hp)
    · rw [dropDupPairs, if_neg hq] at hp
      rcases List.mem_cons.mp hp with hp | hp
      · exact hp ▸ List.mem_cons_self q rest
      · exact List.mem_cons_of_mem q (ih _ p hp)

lemma dropDupPairs_keys (l : List (BRow × BRow)) :
    ∀ seen, ((dropDupPairs l seen).map pairKey).Nodup ∧
      ∀ p ∈ dropDupPairs l seen, pairKey p ∉ seen := by
  induction l with
  | nil => intro seen; exact ⟨List.nodup_nil, by intro p hp; cases hp⟩
  | cons q rest ih =>
    intro seen
    by_cases hq : pairKey q ∈ seen
    · rw [dropDupPairs, if_pos hq]
      exact ih seen
    · rw [dropDupPairs, if_neg hq]
      obtain ⟨ihnd, ihseen⟩ := ih (pairKey q :: seen)
      refine ⟨?_, ?_⟩
      · rw [List.map_cons, List.nodup_cons]
        refine ⟨?_, ihnd⟩
        intro hmem
        obtain ⟨p, hp, hpk⟩ := List.mem_map.mp hmem
        exact ihseen p hp (hpk ▸ List.mem_cons_self _ _)
      · intro p hp
        rcases List.mem_cons.mp hp with hp | hp
        · exact hp ▸ hq
        · intro hs
          exact ihseen p hp (List.mem_cons_of_mem _ hs)

lemma blockingTransform_lt (rules : List SRule) (X : List BRow) :
    ∀ p ∈ blockingTransform rules X, p.1.rowId < p.2.rowId := by
  intro p hp
  exact createPairsTable_lt _ p (dropDupPairs_subset _ _ p hp)

lemma blockingTransform_keys_nodup (rules : List SRule) (X : List BRow) :
    ((blockingTransform rules X).map pairKey).Nodup :=
  (dropDupPairs_keys _ []).1

lemma find?_eq_of_unique {α : Type} (p : α → Bool) (a : α) :
    ∀ l : List α, a ∈ l → p a = true → (∀ b ∈ l, p b = true → b = a) →
      l.find? p = some a := by
  intro l
  induction l with
  | nil => intro ha; cases ha
  | cons b rest ih =>
    intro ha hpa huniq
    by_cases hpb : p b = true
    · have hba : b = a := huniq b (List.mem_cons_self b rest) hpb
      subst hba
      simp [List.find?, hpb]
    · have hba : a ∈ rest := by
        rcases List.mem_cons.mp ha with h1 | h1
        · subst h1; exact absurd hpa hpb
        · exact h1
      rw [List.find?]
      rw [Bool.eq_false_iff.mpr hpb]
      exact ih hba hpa (fun c hc hpc => huniq c (List.mem_cons_of_mem _ hc) hpc)

lemma scorePairs_keys (score0 : List String → List String → ℚ)
    (ps : List (BRow × BRow)) :
    (scorePairs score0 ps).map (fun sp => (sp.r1.rowId, sp.r2.rowId)) =
      ps.map pairKey := by
  simp only [scorePairs, List.map_map]
  rfl

lemma filterScored_sublist (threshold : ℚ) (sps : List ScoredPair) :
    (filterScored threshold sps).Sublist sps :=
  List.filter_sublist sps

lemma scored_keys_nodup (score0 : List String → List String → ℚ) (threshold : ℚ)
    (ps : List (BRow × BRow)) (h : (ps.map pairKey).Nodup) :
    ((filterScored threshold (scorePairs score0 ps)).map
      (fun sp => (sp.r1.rowId, sp.r2.rowId))).Nodup := by
  have hsub := (filterScored_sublist threshold (scorePairs score0 ps)).map
    (fun sp => (sp.r1.rowId, sp.r2.rowId))
  refine List.Nodup.sublist hsub ?_
  rw [scorePairs_keys]
  exact h

lemma scored_lt (score0 : List String → List String → ℚ) (threshold : ℚ)
    (ps : List (BRow × BRow)) (h : ∀ p ∈ ps, p.1.rowId < p.2.rowId) :
    ∀ sp ∈ filterScored threshold (scorePairs score0 ps),
      sp.r1.rowId < sp.r2.rowId := by
  intro sp hsp
  have hsp2 : sp ∈ scorePairs score0 ps :=
    (filterScored_sublist threshold _).mem hsp
  obtain ⟨p, hp, rfl⟩ := List.mem_map.mp hsp2
  exact h p hp

lemma edgeScore_of_mem (sps : List ScoredPair) (sp : ScoredPair)
    (hmem : sp ∈ sps)
    (hlt : ∀ q ∈ sps, q.r1.rowId < q.r2.rowId)
    (hnd : (sps.map (fun q => (q.r1.rowId, q.r2.rowId))).Nodup) :
    edgeScore sps sp.r1.rowId sp.r2.rowId = some sp.score := by
  have hfind : sps.find? (fun q =>
      (q.r1.rowId = sp.r1.rowId ∧ q.r2.rowId = sp.r2.rowId) ∨
      (q.r1.rowId = sp.r2.rowId ∧ q.r2.rowId = sp.r1.rowId)) = some sp := by
    apply find?_eq_of_unique _ sp sps hmem
    · simp
    · intro q hq hpq
      have hq1 : (q.r1.rowId = sp.r1.rowId ∧ q.r2.rowId = sp.r2.rowId) ∨
          (q.r1.rowId = sp.r2.rowId ∧ q.r2.rowId = sp.r1.rowId) := by
        simpa using hpq
      have hkey : (q.r1.rowId, q.r2.rowId) = (sp.r1.rowId, sp.r2.rowId) := by
        rcases hq1 with ⟨h1, h2⟩ | ⟨h1, h2⟩
        · rw [h1, h2]
        · exfalso
          have hqlt := hlt q hq
          have hsplt := hlt sp hmem
          omega
      exact List.inj_on_of_nodup_map hnd hq hmem hkey
  unfold edgeScore
  rw [hfind]
  rfl

lemma dictInsert_keys_nodup (d : List (Nat × Nat)) (k v : Nat)
    (h : (d.map Prod.fst).Nodup) : ((dictInsert d k v).map Prod.fst).Nodup := by
  unfold dictInsert
  by_cases hk : d.any (fun p => p.1 = k)
  · rw [if_pos hk]
    have : (d.map (fun p => if p.1 = k then (k, v) else p)).map Prod.fst =
        d.map Prod.fst := by
      rw [List.map_map]
      apply List.map_congr_left
      intro p _
      by_cases hp : p.1 = k
      · simp [hp]
      · simp [hp]
    rw [this]
    exact h
  · rw [if_neg hk]
    rw [List.map_append]
    apply List.Nodup.append h (List.nodup_singleton k)
    intro x hx hx2
    have hxk : x = k := by simpa using hx2
    subst hxk
    obtain ⟨p, hp, hpk⟩ := List.mem_map.mp hx
    exact hk (List.any_eq_true.mpr ⟨p, hp, by simpa using hpk⟩)

lemma dictUpdate_keys_nodup (kvs : List (Nat × Nat)) :
    ∀ d : List (Nat × Nat), (d.map Prod.fst).Nodup →
      ((dictUpdate d kvs).map Prod.fst).Nodup := by
  induction kvs with
  | nil => intro d h; exact h
  | cons kv rest ih =>
    intro d h
    exact ih (dictInsert d kv.1 kv.2) (dictInsert_keys_nodup d kv.1 kv.2 h)

lemma hcGo_keys_nodup (cut : List (List ℚ) → ℚ → List Nat)
    (sps : List ScoredPair) (ct : ℚ) (cs : List (List Nat)) :
    ∀ counter (d : List (Nat × Nat)), (d.map Prod.fst).Nodup →
      ((hcGo cut sps ct cs counter d).map Prod.fst).Nodup := by
  induction cs with
  | nil => intro counter d h; exact h
  | cons c rest ih =>
    intro counter d h
    exact ih _ _ (dictUpdate_keys_nodup _ d h)

lemma hierarchicalClustering_keys_nodup (cut : List (List ℚ) → ℚ → List Nat)
    (sps : List ScoredPair) (ct : ℚ) :
    ((hierarchicalClustering cut sps ct).map Prod.fst).Nodup :=
  hcGo_keys_nodup cut sps ct _ 0 [] List.nodup_nil

lemma filter_key_length (cl : List (Nat × Nat)) (k : Nat)
    (h : (cl.map Prod.fst).Nodup) :
    (cl.filter (fun c => c.1 = k)).length ≤ 1 := by
  induction cl with
  | nil => simp
  | cons c rest ih =>
    rw [List.map_cons, List.nodup_cons] at h
    by_cases hc : c.1 = k
    · rw [List.filter_cons_of_pos (by simpa using hc)]
      have hrest : rest.filter (fun c => c.1 = k) = [] := by
        rw [List.filter_eq_nil_iff]
        intro b hb hbk
        apply h.1
        have hb1 : b.1 = k := by simpa using hbk
        rw [← hc] at hb1
        exact List.mem_map.mpr ⟨b, hb, hb1⟩
      rw [hrest]
      simp
    · rw [List.filter_cons_of_neg (by simpa using hc)]
      exact ih h.2

lemma leftMerge_map_fst (cl : List (Nat × Nat))
    (h : (cl.map Prod.fst).Nodup) :
    ∀ X : List BRow, (leftMerge X cl).map Prod.fst = X := by
  intro X
  induction X with
  | nil => rfl
  | cons r rest ih =>
    have hstep : leftMerge (r :: rest) cl =
        (let ms := cl.filter (fun c => c.1 = r.rowId)
         if ms.isEmpty then [(r, (none : Option Nat))]
         else ms.map (fun c => (r, some c.2))) ++ leftMerge rest cl := by
      simp [leftMerge]
    rw [hstep, List.map_append, ih]
    by_cases hms : (cl.filter (fun c => c.1 = r.rowId)).isEmpty
    · simp only [hms]
      simp
    · simp only [hms]
      have hlen : (cl.filter (fun c => c.1 = r.rowId)).length = 1 := by
        have hle := filter_key_length cl r.rowId h
        have hne : (cl.filter (fun c => c.1 = r.rowId)).length ≠ 0 := by
          intro h0
          have hemp : (cl.filter (fun c => c.1 = r.rowId)).isEmpty = true :=
            List.isEmpty_iff_length_eq_zero.mpr h0
          exact hms hemp
        omega
      obtain ⟨c, hc⟩ := List.length_eq_one.mp hlen
      rw [hc]
      simp

lemma fillMissing_map_fst :
    ∀ (l : List (BRow × Option Nat)) (next : Nat),
      (fillMissing l next).map Prod.fst = l.map Prod.fst := by
  intro l
  induction l with
  | nil => intro next; rfl
  | cons q rest ih =>
    intro next
    obtain ⟨r, oc⟩ := q
    cases oc with
    | some c => simpa [fillMissing] using ih next
    | none => simpa [fillMissing] using ih (next + 1)

lemma addSingletons_ok (rows : List (BRow × Option Nat))
    (out : List (BRow × Nat)) (h : addSingletons rows = .ok out) :
    out.map Prod.fst = rows.map Prod.fst := by
  unfold addSingletons at h
  cases hmax : maxNat (rows.filterMap (fun r => r.2)) with
  | none => rw [hmax] at h; cases h
  | some m =>
    rw [hmax] at h
    cases h
    exact fillMissing_map_fst rows (m + 1)

lemma rowsOfAux_map_rowId :
    ∀ (X : List (List String)) (i : Nat),
      (rowsOfAux i X).map BRow.rowId = List.range' i X.length := by
  intro X
  induction X with
  | nil => intro i; rfl
  | cons v vs ih =>
    intro i
    rw [List.length_cons, List.range'_succ]
    simpa [rowsOfAux] using ih (i + 1)

lemma rowsOf_map_rowId (X : List (List String)) :
    (rowsOf X).map BRow.rowId = List.range X.length := by
  rw [rowsOf, rowsOfAux_map_rowId, List.range_eq_range']

lemma fillMissing_new_ids :
    ∀ (l : List (BRow × Option Nat)) (next : Nat),
      assignedSingletonIds (fillMissing l next) l =
        List.range' next (missingCount l) := by
  intro l
  induction l with
  | nil => intro next; rfl
  | cons q rest ih =>
    intro next
    obtain ⟨r, oc⟩ := q
    cases oc with
    | some c =>
      have hmc : missingCount ((r, some c) :: rest) = missingCount rest := by
        simp [missingCount]
      rw [hmc]
      simpa [fillMissing, assignedSingletonIds] using ih next
    | none =>
      have hmc : missingCount ((r, none) :: rest) = missingCount rest + 1 := by
        simp [missingCount]
      rw [hmc, List.range'_succ]
      simpa [fillMissing, assignedSingletonIds] using ih (next + 1)

lemma mem_createFitPairsTable (sample : List BRow) (a b : BRow) :
    (a, b) ∈ createFitPairsTable sample ↔
      a ∈ sample ∧ b ∈ sample ∧ a.rowId ≤ b.rowId := by
  unfold createFitPairsTable
  rw [List.mem_filter]
  constructor
  · rintro ⟨hmem, hle⟩
    simp only [List.mem_flatten, List.mem_map] at hmem
    obtain ⟨l, ⟨a1, ha1, rfl⟩, hb⟩ := hmem
    obtain ⟨b1, hb1, heq⟩ := List.mem_map.mp hb
    injection heq with h1 h2
    subst h1
    subst h2
    exact ⟨ha1, hb1, by simpa using hle⟩
  · rintro ⟨ha, hb, hle⟩
    refine ⟨?_, by simpa using hle⟩
    simp only [List.mem_flatten, List.mem_map]
    exact ⟨sample.map (fun x => (a, x)), ⟨a, ha, rfl⟩, List.mem_map.mpr ⟨b, hb, rfl⟩⟩

/-- Concrete classifier model used in witnesses and counterexamples: a
classifier that outputs probability 0 for every pair. -/
def score0c : List String → List String → ℚ := fun _ _ => 0

/-- Concrete blocking rule used in witnesses and counterexamples: the
identity token on column 0, not applicable to empty values (an external
PredicateRule may return null). -/
def idRule : SRule := ⟨0, fun v => if v = "" then none else some v⟩

/-- C3: every candidate pair returned by `Blocking.transform` satisfies
`row_id_1 < row_id_2` (no self-pairs, no reversed duplicates), and no
`(row_id_1, row_id_2)` combination appears more than once in the returned
pairs table. -/
theorem blocking_pairs_ordered_unique (rules : List SRule) (X : List BRow) :
    (∀ p ∈ blockingTransform rules X, p.1.rowId < p.2.rowId) ∧
      ((blockingTransform rules X).map pairKey).Nodup :=
  ⟨blockingTransform_lt rules X, blockingTransform_keys_nodup rules X⟩

/-- Witness for C3 at a concrete input: the pair table of two identical
records contains the pair `(0, 1)` in increasing order, and its key list
has no duplicates. -/
theorem blocking_pairs_ordered_unique_witness :
    ((⟨["a"], 0⟩, ⟨["a"], 1⟩) : BRow × BRow).1.rowId <
        ((⟨["a"], 0⟩, ⟨["a"], 1⟩) : BRow × BRow).2.rowId ∧
      ((blockingTransform [idRule] (rowsOf [["a"], ["a"]])).map pairKey).Nodup :=
  ⟨(blocking_pairs_ordered_unique [idRule] (rowsOf [["a"], ["a"]])).1
      (⟨["a"], 0⟩, ⟨["a"], 1⟩) (by decide),
    (blocking_pairs_ordered_unique [idRule] (rowsOf [["a"], ["a"]])).2⟩

/-- C4: `Deduplicator.__init__` called with `rules` given as a list does
not apply the supplied list: `rules_info` maps every column to the
package-level `all_rules`, ignoring the argument, contrary to the
constructor's own docstring ("list of blocking functions to use for all
columns"). -/
theorem rules_list_ignored_bug :
    initRulesInfo ["ruleA", "ruleB"] ["name"] (some (RulesArg.rlist ["ruleA"])) =
        [("name", ["ruleA", "ruleB"])] ∧
      [("name", ["ruleA", "ruleB"])] ≠ [("name", ["ruleA"])] :=
  ⟨rfl, by decide⟩

/-- Concrete scored pair used by the C6 witness. -/
def c6sps : List ScoredPair := [⟨⟨["a"], 0⟩, ⟨["b"], 1⟩, 9/10⟩]

/-- C6: for a component with at least two nodes the code hands the cut
routine the dense distance matrix with `d(i,j) = 1 - score` on scored
pairs, 1 on distinct unscored pairs and 0 on the diagonal, together with
the threshold `1 - cluster_threshold`; a single-node component becomes the
lone cluster label `[1]`. -/
theorem component_refinement (sps : List ScoredPair)
    (cut : List (List ℚ) → ℚ → List Nat) (ct : ℚ) (c : List Nat) (i j : Nat)
    (s : ℚ) (hij : i ≠ j) :
    distanceEntry sps i i = 0 ∧
    (edgeScore sps i j = some s → distanceEntry sps i j = 1 - s) ∧
    (edgeScore sps i j = none → distanceEntry sps i j = 1) ∧
    (1 < c.length → clusterLabels cut sps ct c = cut (distMatrix sps c) (1 - ct)) ∧
    (c.length = 1 → clusterLabels cut sps ct c = [1]) := by
  refine ⟨by simp [distanceEntry], ?_, ?_, ?_, ?_⟩
  · intro h; simp [distanceEntry, hij, h]
  · intro h; simp [distanceEntry, hij, h]
  · intro h; simp [clusterLabels, h]
  · intro h; simp [clusterLabels, h]

/-- Witness for C6 at a concrete input: a scored edge with score 9/10 gets
distance 1/10, and a two-node component is cut at threshold
`1 - cluster_threshold`. -/
theorem component_refinement_witness :
    distanceEntry c6sps 0 1 = 1 - 9/10 ∧
    clusterLabels cutMergeAll c6sps (1/2) [0, 1] =
      cutMergeAll (distMatrix c6sps [0, 1]) (1 - 1/2) :=
  ⟨(component_refinement c6sps cutMergeAll (1/2) [0, 1] 0 1 (9/10)
      (by decide)).2.1 rfl,
    (component_refinement c6sps cutMergeAll (1/2) [0, 1] 0 1 (9/10)
      (by decide)).2.2.2.1 (by decide)⟩

/-- C8, counterexample: at `n_samples = 2` the code draws
`int(2 ** 0.5) = 1` record, not the `⌈√2⌉ = 2` records the claim states. -/
theorem fit_sample_size_cex :
    fitSampleSize 2 = 1 ∧ ceilSqrt 2 = 2 ∧ fitSampleSize 2 ≠ ceilSqrt 2 := by
  have hs : Nat.sqrt 2 = 1 := by
    have h1 : 1 ≤ Nat.sqrt 2 := Nat.le_sqrt.mpr (by norm_num)
    have h2 : Nat.sqrt 2 < 2 := Nat.sqrt_lt.mpr (by norm_num)
    omega
  have hf : fitSampleSize 2 = 1 := hs
  have hc : ceilSqrt 2 = 2 := by
    unfold ceilSqrt
    rw [hs]
    norm_num
  exact ⟨hf, hc, by rw [hf, hc]; norm_num⟩

/-- C8, amended: `fit` draws `⌊√n_samples⌋` records (the floor, not the
ceiling), and the pairs table is the cross product of the sample restricted
to `row_id_1 ≤ row_id_2`, self-pairs included. -/
theorem fit_sample_floor_sqrt (n : Nat) (sample : List BRow) (a b : BRow) :
    fitSampleSize n * fitSampleSize n ≤ n ∧
    n < (fitSampleSize n + 1) * (fitSampleSize n + 1) ∧
    ((a, b) ∈ createFitPairsTable sample ↔
      a ∈ sample ∧ b ∈ sample ∧ a.rowId ≤ b.rowId) := by
  refine ⟨Nat.sqrt_le n, ?_, mem_createFitPairsTable sample a b⟩
  have h := Nat.lt_succ_sqrt n
  simpa [Nat.succ_eq_add_one, fitSampleSize] using h

/-- Witness for C8's amended theorem at a concrete input: the floor bound
at `n_samples = 10` and a self-pair membership in a concrete sample. -/
theorem fit_sample_floor_sqrt_witness :
    fitSampleSize 10 * fitSampleSize 10 ≤ 10 ∧
    ((⟨["a"], 0⟩, ⟨["a"], 0⟩) : BRow × BRow) ∈
      createFitPairsTable [⟨["a"], 0⟩, ⟨["b"], 1⟩] :=
  ⟨(fit_sample_floor_sqrt 10 [⟨["a"], 0⟩, ⟨["b"], 1⟩] ⟨["a"], 0⟩ ⟨["a"], 0⟩).1,
    ((fit_sample_floor_sqrt 10 [⟨["a"], 0⟩, ⟨["b"], 1⟩] ⟨["a"], 0⟩ ⟨["a"], 0⟩).2.2).mpr
      ⟨by decide, by decide, by decide⟩⟩

lemma mem_setItemCol {a c : String} {l : List String}
    (h : a ∈ setItemCol l c) : a ∈ l ∨ a = c := by
  unfold setItemCol at h
  by_cases hc : c ∈ l
  · rw [if_pos hc] at h
    exact Or.inl h
  · rw [if_neg hc] at h
    rcases List.mem_append.mp h with h | h
    · exact Or.inl h
    · right
      simpa using h

/-- C9: `predict` writes the row-number column onto the caller's dataframe
object itself, and that column is still present on the caller's frame after
`predict` returns, while the returned frame has it dropped. -/
theorem predict_mutates_caller (rowId dedupId : String) (cols : List String)
    (hrow : rowId ∉ cols) (hne : dedupId ≠ rowId) :
    predictCallerCols rowId cols = cols ++ [rowId] ∧
    rowId ∈ predictCallerCols rowId cols ∧
    rowId ∉ predictResultCols rowId dedupId cols := by
  refine ⟨?_, ?_, ?_⟩
  · simp [predictCallerCols, setItemCol, hrow]
  · simp [predictCallerCols, setItemCol, hrow]
  · intro hmem
    unfold predictResultCols at hmem
    rcases mem_setItemCol hmem with h | h
    · unfold dropCol at h
      have hfil := List.of_mem_filter h
      simp at hfil
    · exact hne h.symm

/-- Witness for C9 at concrete column names. -/
theorem predict_mutates_caller_witness :
    predictCallerCols "row_number" ["name"] = ["name", "row_number"] ∧
    "row_number" ∉ predictResultCols "row_number" "deduplication_id" ["name"] :=
  ⟨(predict_mutates_caller "row_number" "deduplication_id" ["name"]
      (by decide) (by decide)).1,
    (predict_mutates_caller "row_number" "deduplication_id" ["name"]
      (by decide) (by decide)).2.2⟩

/-- C10: after `Blocking.fit`, a spec is in `rules_selected` exactly when
its `rule_set` equals — by set equality, Python `in` on a list of sets —
some member of the cover; hence two specs with equal coverage sets are
always both selected or both unselected. -/
theorem rules_selected_set_equality (specs : List RuleSpecL)
    (cover : List (Finset Nat)) (s s1 s2 : RuleSpecL)
    (hs : s ∈ specs) (h1 : s1 ∈ specs) (h2 : s2 ∈ specs)
    (heq : s1.ruleSet = s2.ruleSet) :
    (s.ruleSet ∈ cover → s ∈ rulesSelected specs cover) ∧
    (s ∈ rulesSelected specs cover → s.ruleSet ∈ cover) ∧
    (s1 ∈ rulesSelected specs cover ↔ s2 ∈ rulesSelected specs cover) := by
  have hmem : ∀ t : RuleSpecL, t ∈ specs →
      (t ∈ rulesSelected specs cover ↔ t.ruleSet ∈ cover) := by
    intro t ht
    unfold rulesSelected
    rw [List.mem_filter]
    constructor
    · rintro ⟨_, hdec⟩
      exact of_decide_eq_true hdec
    · intro hc
      exact ⟨ht, decide_eq_true hc⟩
  refine ⟨fun hc => (hmem s hs).mpr hc, fun hin => (hmem s hs).mp hin, ?_⟩
  rw [hmem s1 h1, hmem s2 h2, heq]

/-- Concrete rule specs for the C10 witness: two specs whose rule sets are
written differently but are equal as sets. -/
def cSpec1 : RuleSpecL := ⟨"name", "ruleA", {0, 1}⟩

/-- Second concrete rule spec for the C10 witness. -/
def cSpec2 : RuleSpecL := ⟨"address", "ruleB", {1, 0}⟩

/-- Witness for C10 at a concrete input: with cover `[{0, 1}]` the first
spec is selected, and the two specs with set-equal coverage are selected
together. -/
theorem rules_selected_set_equality_witness :
    cSpec1 ∈ rulesSelected [cSpec1, cSpec2] [{0, 1}] ∧
    (cSpec1 ∈ rulesSelected [cSpec1, cSpec2] [{0, 1}] ↔
      cSpec2 ∈ rulesSelected [cSpec1, cSpec2] [{0, 1}]) :=
  ⟨(rules_selected_set_equality [cSpec1, cSpec2] [{0, 1}] cSpec1 cSpec1 cSpec2
      (by decide) (by decide) (by decide) (by decide)).1 (by decide),
    (rules_selected_set_equality [cSpec1, cSpec2] [{0, 1}] cSpec1 cSpec1 cSpec2
      (by decide) (by decide) (by decide) (by decide)).2.2⟩

/-- C1: on every run where `predict` completes, every input record appears
exactly once in the output, in input order, with exactly one integer
deduplication id: no record is dropped, none is duplicated across
clusters, and records with no surviving scored pair are covered via
`_add_singletons`. -/
theorem predict_cluster_totality (score0 : List String → List String → ℚ)
    (cut : List (List ℚ) → ℚ → List Nat) (rules : List SRule)
    (scoreThreshold clusterThreshold : ℚ) (X : List (List String))
    (out : List (BRow × Nat))
    (h : predictFull score0 cut rules scoreThreshold clusterThreshold X = .ok out) :
    out.map Prod.fst = rowsOf X ∧
    out.map (fun rc => rc.1.rowId) = List.range X.length := by
  have hnd := hierarchicalClustering_keys_nodup cut
    (filterScored scoreThreshold (scorePairs score0 (blockingTransform rules (rowsOf X))))
    clusterThreshold
  have hmerge := leftMerge_map_fst _ hnd (rowsOf X)
  unfold predictFull at h
  have hout := addSingletons_ok _ _ h
  rw [hmerge] at hout
  refine ⟨hout, ?_⟩
  have hcomp : out.map (fun rc => rc.1.rowId) = (out.map Prod.fst).map BRow.rowId := by
    rw [List.map_map]
    rfl
  rw [hcomp, hout, rowsOf_map_rowId]

/-- Witness for C1 at a concrete completed run of three records: the pair
`(0, 1)` clusters together, record 2 is a singleton, and the output keeps
all three records in order with one id each. -/
theorem predict_cluster_totality_witness :
    ([(⟨["a"], 0⟩, 1), (⟨["a"], 1⟩, 1), (⟨["c"], 2⟩, 2)] : List (BRow × Nat)).map
        Prod.fst = rowsOf [["a"], ["a"], ["c"]] ∧
    ([(⟨["a"], 0⟩, 1), (⟨["a"], 1⟩, 1), (⟨["c"], 2⟩, 2)] : List (BRow × Nat)).map
        (fun rc => rc.1.rowId) = List.range [["a"], ["a"], ["c"]].length :=
  predict_cluster_totality score0c cutMergeAll [idRule] 0 (1/2)
    [["a"], ["a"], ["c"]] [(⟨["a"], 0⟩, 1), (⟨["a"], 1⟩, 1), (⟨["c"], 2⟩, 2)] rfl

/-- C2, counterexample: two records identical on every configured field
whose value no selected rule applies to are never produced as a candidate
pair by blocking; `predict` gives them no score at all and they end in two
different clusters — the completed run below assigns them ids 2 and 3. -/
theorem exact_duplicate_shortcut_cex :
    predictD score0c cutMergeAll [idRule] 0 (1/2) [[""], [""], ["x"], ["x"]] =
        .ok [([""], 2), ([""], 3), (["x"], 1), (["x"], 1)] ∧
      (2 : Nat) ≠ 3 :=
  ⟨rfl, by decide⟩

/-- C2, amended: every candidate pair produced by blocking whose records
agree on every configured field is scored 1.0 regardless of the classifier
output; whenever `score_threshold ≤ 1` the pair survives the filter, so the
two records are joined by an edge of weight 1 and distance 0 in the
clustering graph (hence fall in the same connected component).  Identical
records that blocking never pairs can still end in different clusters. -/
theorem exact_duplicate_shortcut_amended (score0 : List String → List String → ℚ)
    (rules : List SRule) (threshold : ℚ) (X : List (List String))
    (p : BRow × BRow) (hp : p ∈ blockingTransform rules (rowsOf X))
    (hv : p.1.vals = p.2.vals) (hth : threshold ≤ 1) :
    (⟨p.1, p.2, 1⟩ : ScoredPair) ∈
      filterScored threshold (scorePairs score0 (blockingTransform rules (rowsOf X))) ∧
    edgeScore (filterScored threshold
        (scorePairs score0 (blockingTransform rules (rowsOf X))))
      p.1.rowId p.2.rowId = some 1 ∧
    distanceEntry (filterScored threshold
        (scorePairs score0 (blockingTransform rules (rowsOf X))))
      p.1.rowId p.2.rowId = 0 := by
  have hsp : (⟨p.1, p.2, 1⟩ : ScoredPair) ∈
      scorePairs score0 (blockingTransform rules (rowsOf X)) := by
    unfold scorePairs
    apply List.mem_map.mpr
    exact ⟨p, hp, by rw [if_pos hv]⟩
  have hmem : (⟨p.1, p.2, 1⟩ : ScoredPair) ∈
      filterScored threshold (scorePairs score0 (blockingTransform rules (rowsOf X))) := by
    unfold filterScored
    apply List.mem_filter.mpr
    exact ⟨hsp, decide_eq_true hth⟩
  have hlt : ∀ q ∈ filterScored threshold
      (scorePairs score0 (blockingTransform rules (rowsOf X))),
      q.r1.rowId < q.r2.rowId :=
    scored_lt score0 threshold _ (blockingTransform_lt rules (rowsOf X))
  have hnd := scored_keys_nodup score0 threshold _
    (blockingTransform_keys_nodup rules (rowsOf X))
  have hedge : edgeScore (filterScored threshold
      (scorePairs score0 (blockingTransform rules (rowsOf X))))
      p.1.rowId p.2.rowId = some 1 :=
    edgeScore_of_mem _ _ hmem hlt hnd
  refine ⟨hmem, hedge, ?_⟩
  have hne : p.1.rowId ≠ p.2.rowId :=
    Nat.ne_of_lt (blockingTransform_lt rules (rowsOf X) p hp)
  unfold distanceEntry
  rw [if_neg hne, hedge]
  norm_num

/-- Witness for C2's amended theorem at a concrete input: the identical
pair `(0, 1)` of the two-record run is scored 1 and sits at distance 0. -/
theorem exact_duplicate_shortcut_amended_witness :
    (⟨⟨["x"], 0⟩, ⟨["x"], 1⟩, 1⟩ : ScoredPair) ∈
        filterScored 0 (scorePairs score0c
          (blockingTransform [idRule] (rowsOf [["x"], ["x"]]))) ∧
      distanceEntry (filterScored 0 (scorePairs score0c
          (blockingTransform [idRule] (rowsOf [["x"], ["x"]])))) 0 1 = 0 :=
  ⟨(exact_duplicate_shortcut_amended score0c [idRule] 0 [["x"], ["x"]]
      (⟨["x"], 0⟩, ⟨["x"], 1⟩) (by decide) rfl (by decide)).1,
    (exact_duplicate_shortcut_amended score0c [idRule] 0 [["x"], ["x"]]
      (⟨["x"], 0⟩, ⟨["x"], 1⟩) (by decide) rfl (by decide)).2.2⟩

/-- C5: a fitted pipeline crashes on degenerate input rather than
returning all-singleton ids: with zero surviving candidate pairs (here a
1-record and a 0-record dataset) every merged id is null, the pandas `max`
of the id column is NaN, and `_add_singletons` raises the `np.arange`
error instead of assigning singleton ids. -/
theorem predict_degenerate_crash :
    predictD score0c cutMergeAll [idRule] 0 (1/2) [["a"]] =
        .error "ValueError: cannot convert float NaN to integer" ∧
      predictD score0c cutMergeAll [idRule] 0 (1/2) [] =
        .error "ValueError: cannot convert float NaN to integer" :=
  ⟨rfl, rfl⟩

/-- C7, counterexample: a completed run with two fully merging components
gives ids `[1, 1, 3, 3]` — the component counter advances by component
size, so id 2 is skipped and the id set is not a dense range. -/
theorem dense_ids_cex :
    predictD score0c cutMergeAll [idRule] 0 (1/2) [["a"], ["a"], ["b"], ["b"]] =
        .ok [(["a"], 1), (["a"], 1), (["b"], 3), (["b"], 3)] ∧
      noGapsB ([(["a"], 1), (["a"], 1), (["b"], 3), (["b"], 3)].map Prod.snd) = false :=
  ⟨rfl, rfl⟩

/-- C7, amended: the ids that `_add_singletons` assigns are the dense
consecutive range `max + 1 … max + n_missing` above the maximum existing
id; the overall id set need not be gap-free, because each multi-node
component advances the cluster counter by its node count even when it
merges into fewer sub-clusters. -/
theorem singleton_ids_consecutive (rows : List (BRow × Option Nat))
    (out : List (BRow × Nat)) (m : Nat)
    (hmax : maxNat (rows.filterMap (fun r => r.2)) = some m)
    (hok : addSingletons rows = .ok out) :
    assignedSingletonIds out rows = List.range' (m + 1) (missingCount rows) := by
  unfold addSingletons at hok
  rw [hmax] at hok
  cases hok
  exact fillMissing_new_ids rows (m + 1)

/-- Witness for C7's amended theorem at a concrete input: two null rows
after a cluster with maximum id 1 receive exactly the ids 2 and 3. -/
theorem singleton_ids_consecutive_witness :
    assignedSingletonIds
        [(⟨[""], 0⟩, 2), (⟨[""], 1⟩, 3), (⟨["x"], 2⟩, 1), (⟨["x"], 3⟩, 1)]
        [(⟨[""], 0⟩, none), (⟨[""], 1⟩, none), (⟨["x"], 2⟩, some 1), (⟨["x"], 3⟩, some 1)] =
      List.range' 2
        (missingCount
          [(⟨[""], 0⟩, none), (⟨[""], 1⟩, none), (⟨["x"], 2⟩, some 1), (⟨["x"], 3⟩, some 1)]) :=
  singleton_ids_consecutive
    [(⟨[""], 0⟩, none), (⟨[""], 1⟩, none), (⟨["x"], 2⟩, some 1), (⟨["x"], 3⟩, some 1)]
    [(⟨[""], 0⟩, 2), (⟨[""], 1⟩, 3), (⟨["x"], 2⟩, 1), (⟨["x"], 3⟩, 1)] 1 rfl rfl
